import Mathlib

set_option maxHeartbeats 1000000

/-!
# Verification of the Aurora load-generation harness

A shallow embedding, in Lean 4, of the shared client harness found in the
Aurora repository (`examples/stress_test.py`, `examples/extreme_stress.py`,
`examples/final_benchmark.py`, `tests/realworld/sustained_load.py`,
`tests/realworld/spike_test.py`, `tests/realworld/endpoint_mix.py`,
`tests/realworld/gradual_stress.py`, `examples/bomb_test.py`).

Bytes are modelled as `List Char` (the clients only inspect ASCII), the
incoming side of a socket as the full byte sequence the peer will deliver
before closing together with a fragmentation schedule describing how the
network splits it across `recv` calls, and Python numbers as `ℕ`, `ℤ`
and `ℚ`.  Fallible Python code (exceptions) is modelled with `Option`
and explicit outcome inductives.
-/

/-! ## Python `str`/`bytes` primitives used by the clients -/

/-- Python whitespace (the characters relevant to the HTTP clients). -/
def isSpaceChar (c : Char) : Bool :=
  c == ' ' || c == '\t' || c == '\n' || c == '\r'

/-- Leading-whitespace strip, one side of Python `str.strip()`. -/
def stripL (s : List Char) : List Char := s.dropWhile isSpaceChar

/-- Python `str.strip()`. -/
def pyStrip (s : List Char) : List Char := (stripL (stripL s).reverse).reverse

/-- Python `str.lower()` (ASCII suffices here). -/
def pyLower (s : List Char) : List Char := s.map Char.toLower

/-- Python `bytes.find(sep)` / the `sep in s` test: index of the first
occurrence of `sep` in `s`, if any. -/
def findSub (sep : List Char) : List Char → Option ℕ
  | [] => if sep.isEmpty then some 0 else none
  | c :: rest =>
    if sep.isPrefixOf (c :: rest) then some 0
    else (findSub sep rest).map (· + 1)

/-- Fuelled worker for `splitOnSep`. -/
def splitOnAux (sep : List Char) : ℕ → List Char → List (List Char)
  | 0, s => [s]
  | fuel + 1, s =>
    match findSub sep s with
    | none => [s]
    | some i => s.take i :: splitOnAux sep fuel (s.drop (i + sep.length))

/-- Python `str.split(sep)` for a non-empty separator. -/
def splitOnSep (sep s : List Char) : List (List Char) :=
  splitOnAux sep (s.length + 1) s

/-- Accumulator-passing worker for `splitWs`. -/
def splitWsAux : List Char → List Char → List (List Char)
  | acc, [] => if acc.isEmpty then [] else [acc.reverse]
  | acc, c :: rest =>
    if isSpaceChar c then
      if acc.isEmpty then splitWsAux [] rest
      else acc.reverse :: splitWsAux [] rest
    else splitWsAux (c :: acc) rest

/-- Python `str.split()` with no argument: split on whitespace runs,
discarding empty fields. -/
def splitWs (s : List Char) : List (List Char) := splitWsAux [] s

/-- Decimal accumulation for `digitsToNat`. -/
def digitsToNatAux : ℕ → List Char → Option ℕ
  | acc, [] => some acc
  | acc, c :: rest =>
    if c.isDigit then digitsToNatAux (acc * 10 + (c.toNat - 48)) rest else none

/-- Value of a non-empty all-digit string; `none` otherwise. -/
def digitsToNat : List Char → Option ℕ
  | [] => none
  | c :: rest => digitsToNatAux 0 (c :: rest)

/-- Python `int(s)` on a base-10 string: optional surrounding whitespace,
optional sign, then digits.  `none` models the `ValueError` raised on any
other input. -/
def pyInt (s : List Char) : Option ℤ :=
  match pyStrip s with
  | '-' :: rest => (digitsToNat rest).map (fun n => -(n : ℤ))
  | '+' :: rest => (digitsToNat rest).map (fun n => (n : ℤ))
  | rest => (digitsToNat rest).map (fun n => (n : ℤ))

/-- Python `line.split(":", 1)` guarded by `":" in line`: the text before
the first colon and the text after it. -/
def splitColon1 (l : List Char) : Option (List Char × List Char) :=
  match findSub [':'] l with
  | none => none
  | some i => some (l.take i, l.drop (i + 1))

/-! ## ResponseFramer: `parse_response` from `examples/stress_test.py`

`parse_response(sock)` reads 4096-byte chunks until the accumulated bytes
contain the header terminator `\x0d\x0a\x0d\x0a`, parses the status line and the
headers, then drains `Content-Length` body bytes (capped at 65536 per read)
and returns `(status_code, content_length, headers)`.  The incoming side of
the socket is a `Net`: the bytes the peer will deliver before closing plus a
schedule of how the network fragments them (entry `k` means the next `recv`
has `k + 1` bytes available before the caller's cap; an exhausted schedule
delivers as much as the cap allows).  Quantifying theorems over `sched`
captures responses "arriving split across arbitrarily many reads". -/

/-- The incoming side of one connection: undelivered bytes plus the
fragmentation schedule of the network. -/
structure Net where
  sched : List ℕ
  pending : List Char
deriving DecidableEq

/-- `sock.recv(cap)`: the empty chunk iff the peer has closed (no pending
bytes); otherwise a non-empty chunk of at most `cap` bytes taken from the
front of `pending`, its size chosen by the fragmentation schedule. -/
def recv (cap : ℕ) (net : Net) : List Char × Net :=
  if net.pending = [] then ([], net)
  else
    let want : ℕ :=
      match net.sched with
      | [] => cap
      | k :: _ => min (k + 1) cap
    let size := min want net.pending.length
    (net.pending.take size, { sched := net.sched.tail, pending := net.pending.drop size })

/-- Outcome of the header-reading loop of `parse_response`. -/
inductive HdrPhase where
  | closed
  | fuelOut
  | done (response : List Char) (net : Net)
deriving DecidableEq

/-- The header loop of `parse_response`: `recv(4096)` until the response
buffer contains a blank line (`\x0d\x0a\x0d\x0a`); an empty read means the peer
closed before the header block completed.  `fuel` only serves termination
and is always called with more fuel than there are pending bytes. -/
def readHeadersF : ℕ → Net → List Char → HdrPhase
  | 0, _, _ => .fuelOut
  | fuel + 1, net, response =>
    let cn := recv 4096 net
    if cn.1 = [] then .closed
    else
      let response' := response ++ cn.1
      if (findSub (['\r', '\n', '\r', '\n']) response').isSome then .done response' cn.2
      else readHeadersF fuel cn.2 response'

/-- The body-draining loop of `parse_response`: while fewer than
`content_length` body bytes have been seen, `recv(min(remaining, 65536))`;
an empty read (peer closed early) breaks out.  Returns the loop's
`body_received` counter: the number of body bytes actually read. -/
def readBodyF : ℕ → Net → ℕ → ℤ → ℕ
  | 0, _, got, _ => got
  | fuel + 1, net, got, cl =>
    if (got : ℤ) < cl then
      let remaining := (cl - got).toNat
      let cn := recv (min remaining 65536) net
      if cn.1 = [] then got
      else readBodyF fuel cn.2 (got + cn.1.length) cl
    else got

/-- `int(first_line.split()[1])`: the status code of the status line;
`none` models the `IndexError`/`ValueError` raised on an unparsable line. -/
def parseStatusLine (firstLine : List Char) : Option ℤ :=
  match (splitWs firstLine).get? 1 with
  | none => none
  | some tok => pyInt tok

/-- The header dictionary built by `parse_response`: every line containing a
colon contributes `key.strip().lower() -> value.strip()`; later duplicates
override earlier ones (Python `dict` assignment). -/
def buildHeaders (lines : List (List Char)) : List (List Char × List Char) :=
  lines.foldl
    (fun d line =>
      match splitColon1 line with
      | none => d
      | some kv => d ++ [(pyLower (pyStrip kv.1), pyStrip kv.2)]) []

/-- Python `dict` lookup with override semantics: the last binding wins. -/
def dictGetLast (d : List (List Char × List Char)) (k : List Char) : Option (List Char) :=
  (d.reverse.find? (fun p => p.1 == k)).map Prod.snd

/-- The header name `content-length` as written after lowering. -/
def contentLengthKey : List Char :=
  ['c', 'o', 'n', 't', 'e', 'n', 't', '-', 'l', 'e', 'n', 'g', 't', 'h']

/-- `int(headers.get("content-length", 0))`: an absent header yields 0, a
present header is parsed with Python `int` and `none` models the
`ValueError` on an unparsable value. -/
def contentLengthOf (headers : List (List Char × List Char)) : Option ℤ :=
  match dictGetLast headers contentLengthKey with
  | none => some 0
  | some v => pyInt v

/-- Outcome of one `parse_response` call.  `closed`: the function returned
`(None, 0, \x7b\x7d)` because the peer closed during the header block.
`error`: an exception escaped (unparsable status line or `Content-Length`);
the caller counts both as a failed outcome.  `ok status bodyLen bodyRead`:
the returned `(status_code, content_length)` pair together with the
`body_received` counter, the body bytes actually read. -/
inductive ParseOut where
  | closed
  | error
  | fuelOut
  | ok (status : ℤ) (bodyLen : ℤ) (bodyRead : ℕ)
deriving DecidableEq

/-- `parse_response` from `examples/stress_test.py`, lines 81-123. -/
def parse_response (net : Net) : ParseOut :=
  match readHeadersF (net.pending.length + 1) net [] with
  | .closed => .closed
  | .fuelOut => .fuelOut
  | .done response net' =>
    match findSub (['\r', '\n', '\r', '\n']) response with
    | none => .fuelOut
    | some header_end =>
      let header_data := response.take header_end
      let body_start := header_end + 4
      let lines := splitOnSep (['\r', '\n']) header_data
      match parseStatusLine (lines.headD []) with
      | none => .error
      | some status =>
        match contentLengthOf (buildHeaders lines.tail) with
        | none => .error
        | some content_length =>
          let body_received := response.length - body_start
          .ok status content_length
            (readBodyF (net'.pending.length + 1) net' body_received content_length)

/-- The `(status_code, content_length)` pair `parse_response` hands back to
the worker, when it returns at all. -/
def ParseOut.result : ParseOut → Option (ℤ × ℤ)
  | .ok s c _ => some (s, c)
  | _ => none

/-! ## Concrete byte streams used to separate the framer's behaviours -/

/-- A complete, valid response: 34 header bytes, the blank line, then
exactly the 5 declared body bytes. -/
def validNet : Net := ⟨[], ("HTTP/1.1 200 OK\r\nContent-Length: 5\r\n\r\nhello").data⟩

/-- The valid response of `validNet` fragmented into many small reads. -/
def validNetSplit : Net := ⟨[2, 0, 6, 0, 12, 0, 0], ("HTTP/1.1 200 OK\r\nContent-Length: 5\r\n\r\nhello").data⟩

/-- A response whose `Content-Length` value is not a number. -/
def invalidCLNet : Net := ⟨[], ("HTTP/1.1 200 OK\r\nContent-Length: abc\r\n\r\n").data⟩

/-- A response with no `Content-Length` header at all. -/
def absentCLNet : Net := ⟨[], ("HTTP/1.1 204 No Content\r\nServer: aurora\r\n\r\n").data⟩

/-- A response declaring 10 body bytes whose peer closes after sending 3. -/
def earlyCloseNet : Net := ⟨[], ("HTTP/1.1 200 OK\r\nContent-Length: 10\r\n\r\nabc").data⟩

/-! ## Substring-search lemmas

The header loop stops at the first buffer that contains the terminator;
these lemmas let the parse of that buffer be transported to the full
stream: the first occurrence found in a prefix is the first occurrence in
the whole. -/

/-! ## Behaviour of `recv` and the two loops of `parse_response` -/

/-! ## The framer's contract over arbitrary fragmentation -/

/-! ## Worker / ConnectionManager: the `worker` loop of `examples/stress_test.py`

One iteration of the `while running` loop, lines 133-204, as a step
function.  The environment's nondeterminism — whether `connect` succeeds
and whether the send/receive/framing of the request succeeds — is passed in
as oracle values; queue handout is FIFO (`queue.Queue`).  A fresh socket
receives the next unused connection identifier, so identifiers track which
physical connection is in use.  The step result carries two observations of
the iteration: the argument of the `time.sleep` backoff it executed (0 when
none) and the connection identifier a send was attempted on (none when no
send happened). -/

/-- Per-endpoint entry of the `per_endpoint` defaultdict. -/
structure EpStat where
  count : ℕ
  bytes : ℤ
  latencies : List ℚ
deriving DecidableEq

/-- The defaultdict's fresh entry. -/
def epDefault : EpStat := ⟨0, 0, []⟩

/-- `stats["per_endpoint"][e]` update with defaultdict semantics. -/
def updateEp (m : List (String × EpStat)) (e : String) (f : EpStat → EpStat) :
    List (String × EpStat) :=
  match m with
  | [] => [(e, f epDefault)]
  | kv :: rest => if kv.1 = e then (kv.1, f kv.2) :: rest else kv :: updateEp rest e f

/-- The shared `stats` dictionary of `stress_test.py`. -/
structure Stats where
  requests_sent : ℕ
  requests_completed : ℕ
  requests_failed : ℕ
  bytes_received : ℤ
  connection_errors : ℕ
  latencies : List ℚ
  per_endpoint : List (String × EpStat)
deriving DecidableEq

/-- The initial `stats` dictionary. -/
def Stats.init : Stats := ⟨0, 0, 0, 0, 0, [], []⟩

/-- A worker's loop state: its socket (`none` between connections,
otherwise the identifier of the live connection), the next fresh
connection identifier, the `requests_on_connection` counter, the shared
FIFO queue (`none` entries are poison pills), the shared stats, and
whether the loop has exited. -/
structure WState where
  sock : Option ℕ
  nextId : ℕ
  requests_on_connection : ℕ
  queue : List (Option String)
  stats : Stats
  done : Bool
deriving DecidableEq

/-- Oracle: outcome of `sock.connect`. -/
inductive ConnectRes where
  | ok
  | failed
deriving DecidableEq

/-- Oracle: outcome of sending the request and framing the response.
`ok status bodyLen lat` is a send that completed with a non-`None` framed
status; `fail sentOk` is any exception on the live connection
(send failure, receive timeout, framing failure, or a `None` status),
with `sentOk` recording whether `sendall` itself had succeeded. -/
inductive SendRecvRes where
  | ok (status : ℤ) (bodyLen : ℤ) (lat : ℚ)
  | fail (sentOk : Bool)
deriving DecidableEq

/-- Result of one loop iteration plus its two observations. -/
structure StepOut where
  state : WState
  slept : ℚ
  sentOn : Option ℕ
deriving DecidableEq

/-- Lines 167-204: the send/receive part of an iteration, on the current
live connection. -/
def sendPhase (st : WState) (ep : String) (req : SendRecvRes) : StepOut :=
  match st.sock with
  | none => ⟨st, 0, none⟩
  | some cid =>
    match req with
    | .ok _status bodyLen lat =>
      ⟨{ st with
          stats := { st.stats with
            requests_sent := st.stats.requests_sent + 1,
            requests_completed := st.stats.requests_completed + 1,
            bytes_received := st.stats.bytes_received + bodyLen,
            latencies := st.stats.latencies ++ [lat],
            per_endpoint := updateEp st.stats.per_endpoint ep (fun s =>
              ⟨s.count + 1, s.bytes + bodyLen, s.latencies ++ [lat]⟩) },
          requests_on_connection := st.requests_on_connection + 1 },
        0, some cid⟩
    | .fail sentOk =>
      ⟨{ st with
          stats := { st.stats with
            requests_sent := st.stats.requests_sent + (if sentOk then 1 else 0),
            requests_failed := st.stats.requests_failed + 1 },
          sock := none,
          requests_on_connection := 0 },
        1 / 100, some cid⟩

/-- One iteration of the worker loop (lines 133-204), assuming `running`
is still true at the loop head: dequeue (an empty queue or a poison pill
short-circuits), recreate the connection if there is none or it has served
`maxReq` requests, then send and record.  A failed connect increments
`connection_errors`, re-enqueues the task, sleeps 0.1 s and continues. -/
def workerStep (maxReq : ℕ) (st : WState) (conn : ConnectRes) (req : SendRecvRes) : StepOut :=
  match st.queue with
  | [] => ⟨st, 0, none⟩
  | none :: rest => ⟨{ st with queue := rest, done := true }, 0, none⟩
  | some ep :: rest =>
    let st1 := { st with queue := rest }
    if st1.sock = none ∨ maxReq ≤ st1.requests_on_connection then
      match conn with
      | .failed =>
        ⟨{ st1 with
            stats := { st1.stats with
              connection_errors := st1.stats.connection_errors + 1 },
            queue := st1.queue ++ [some ep],
            sock := none },
          1 / 10, none⟩
      | .ok =>
        sendPhase
          { st1 with
              sock := some st1.nextId,
              nextId := st1.nextId + 1,
              requests_on_connection := 0 } ep req
    else sendPhase st1 ep req

/-! ## StatsAggregator recorders

`IntervalStats.record` from `tests/realworld/sustained_load.py` (lines
26-41), the worker recording of `examples/final_benchmark.py` (lines
85-89), `EndpointStats.record` from `tests/realworld/endpoint_mix.py`
(lines 40-53), and the recording branch of `stress_test` in
`tests/realworld/gradual_stress.py` (lines 116-122). -/

/-- `IntervalStats` of `sustained_load.py`. -/
structure IntervalStats where
  completed : ℕ
  failed : ℕ
  latencies : List ℚ
  bytes_received : ℕ
deriving DecidableEq

/-- `IntervalStats.__init__`. -/
def IntervalStats.init : IntervalStats := ⟨0, 0, [], 0⟩

/-- `IntervalStats.record(success, latency, bytes_recv)`. -/
def IntervalStats.record (s : IntervalStats) (success : Bool) (latency : ℚ)
    (bytes_recv : ℕ) : IntervalStats :=
  if success then
    { s with
        completed := s.completed + 1,
        latencies := s.latencies ++ [latency],
        bytes_received := s.bytes_received + bytes_recv }
  else { s with failed := s.failed + 1 }

/-- `n` successful `record` calls on a fresh `IntervalStats`. -/
def intervalRecordIter : ℕ → IntervalStats
  | 0 => IntervalStats.init
  | n + 1 => (intervalRecordIter n).record true 1 0

/-- The per-endpoint stats of `final_benchmark.benchmark_endpoint`. -/
structure FbStats where
  completed : ℕ
  failed : ℕ
  latencies : List ℚ
  bytes : ℕ
deriving DecidableEq

/-- The initial `stats` dictionary of `benchmark_endpoint`. -/
def FbStats.init : FbStats := ⟨0, 0, [], 0⟩

/-- The success recording of `final_benchmark.py` lines 85-89:
`completed += 1`, `bytes += len(response)`, and the latency is appended
only while fewer than 10000 samples are stored. -/
def fbRecordSuccess (s : FbStats) (respLen : ℕ) (elapsed : ℚ) : FbStats :=
  { s with
      completed := s.completed + 1,
      bytes := s.bytes + respLen,
      latencies :=
        if s.latencies.length < 10000 then s.latencies ++ [elapsed]
        else s.latencies }

/-- A per-endpoint entry of `EndpointStats` (`endpoint_mix.py`). -/
structure EpMixStat where
  count : ℕ
  latencies : List ℚ
  bytes : ℕ
  errors : ℕ
deriving DecidableEq

/-- The defaultdict's fresh entry for `EndpointStats`. -/
def epMixDefault : EpMixStat := ⟨0, [], 0, 0⟩

/-- defaultdict access-and-update for `EndpointStats.stats`. -/
def updateEpMix (m : List (String × EpMixStat)) (e : String)
    (f : EpMixStat → EpMixStat) : List (String × EpMixStat) :=
  match m with
  | [] => [(e, f epMixDefault)]
  | kv :: rest => if kv.1 = e then (kv.1, f kv.2) :: rest else kv :: updateEpMix rest e f

/-- `EndpointStats.record(endpoint, latency, bytes_recv, success)` of
`endpoint_mix.py` lines 45-53. -/
def EndpointStats.record (m : List (String × EpMixStat)) (endpoint : String)
    (latency : ℚ) (bytes_recv : ℕ) (success : Bool) : List (String × EpMixStat) :=
  updateEpMix m endpoint (fun s =>
    if success then
      { s with
          count := s.count + 1,
          latencies := s.latencies ++ [latency],
          bytes := s.bytes + bytes_recv }
    else { s with errors := s.errors + 1 })

/-- The latency samples stored for endpoint `k`. -/
def epMixLatencies (m : List (String × EpMixStat)) (k : String) : List ℚ :=
  match m.find? (fun p => p.1 == k) with
  | some p => p.2.latencies
  | none => []

/-- The `StressResult` accumulator of `gradual_stress.py`. -/
structure StressResult where
  completed : ℕ
  failed : ℕ
  latencies : List ℚ
  bytes_received : ℕ
deriving DecidableEq

/-- The recording branch of `gradual_stress.stress_test` lines 116-122. -/
def gradualRecord (r : StressResult) (success : Bool) (latency : ℚ)
    (bytes_recv : ℕ) : StressResult :=
  if success then
    { r with
        completed := r.completed + 1,
        latencies := r.latencies ++ [latency],
        bytes_received := r.bytes_received + bytes_recv }
  else { r with failed := r.failed + 1 }

/-- The tuple returned by the exception branch of
`gradual_stress.make_request` (lines 96-97): a failed attempt carries
latency 0 and zero bytes. -/
def makeRequestErrorResult : Bool × ℚ × ℕ := (false, 0, 0)

/-! ## Percentiles

`sorted(latencies)` with nearest-rank indexing, as used by
`final_benchmark.py` (lines 122-127) and `sustained_load.py` (lines
177-181), against the aggregator convention: sort ascending and index at
`floor(p * n)` clamped to `[0, n-1]`. -/

/-- Python `sorted(l)` (any stable comparison sort; over `ℚ` the sorted
permutation is unique). -/
def pySorted (l : List ℚ) : List ℚ := l.insertionSort (fun a b => a ≤ b)

/-- Python `max(l)` on a non-empty list (0 on the empty list, which Python
rejects instead). -/
def pyMax : List ℚ → ℚ
  | [] => 0
  | x :: xs => xs.foldl max x

/-- Python `min(l)` on a non-empty list. -/
def pyMin : List ℚ → ℚ
  | [] => 0
  | x :: xs => xs.foldl min x

/-- The aggregator percentile convention: sort the samples ascending and
index at `floor(p * n)` clamped to `[0, n-1]` (nearest rank, no
interpolation). -/
def percentile (p : ℚ) (l : List ℚ) : ℚ :=
  (pySorted l).getD (min (⌊p * l.length⌋.toNat) (l.length - 1)) 0

/-- `final_benchmark.py` line 127:
`sorted_lat[int(len(sorted_lat)*0.99)] if len(sorted_lat) >= 100 else max(sorted_lat)`. -/
def fbP99 (latencies : List ℚ) : ℚ :=
  let sorted_lat := pySorted latencies
  if 100 ≤ sorted_lat.length then
    sorted_lat.getD (⌊(sorted_lat.length : ℚ) * (99 / 100)⌋.toNat) 0
  else pyMax sorted_lat

/-- `sustained_load.py` line 180:
`sorted_lats[int(len(sorted_lats) * 0.99)] if len(sorted_lats) > 100 else sorted_lats[-1]`. -/
def susP99 (latencies : List ℚ) : ℚ :=
  let sorted_lats := pySorted latencies
  if 100 < sorted_lats.length then
    sorted_lats.getD (⌊(sorted_lats.length : ℚ) * (99 / 100)⌋.toNat) 0
  else sorted_lats.getD (sorted_lats.length - 1) 0

/-! ## Orchestrator exit behaviour and the final report's success rate

`main` of `examples/stress_test.py` (lines 343-358) probes the target up
to 30 times and calls `sys.exit(1)` only when every probe fails; after a
successful probe the run completes and the interpreter exits 0.
`run_sustained_test` of `tests/realworld/sustained_load.py` (lines
119-127) merely prints an error and returns on a failed probe — the
process still exits 0 — while its final report (line 210) divides by
`total_completed + total_failed` with no guard, so a run that recorded no
attempt dies with an uncaught `ZeroDivisionError` (exit code 1). -/

/-- Exit code of `stress_test.py`'s `main`, as a function of the outcomes
of the (up to 30) pre-flight connect probes; a run that passes pre-flight
terminates normally. -/
def stressTestExitCode (preflight : List Bool) : ℕ :=
  if (preflight.take 30).any id then 0 else 1

/-- Exit code of `run_sustained_test`: a failed pre-flight probe prints an
error and returns (exit 0); otherwise the final report raises
`ZeroDivisionError` (uncaught, exit 1) iff no attempt was recorded. -/
def sustainedExitCode (preflightOk : Bool) (totalCompleted totalFailed : ℕ) : ℕ :=
  if preflightOk = false then 0
  else if totalCompleted + totalFailed = 0 then 1
  else 0

/-- Python `/` on rationals: `ZeroDivisionError` on a zero denominator. -/
def pyDivQ (a b : ℚ) : Except Unit ℚ :=
  if b = 0 then Except.error () else Except.ok (a / b)

/-- `sustained_load.py` line 210:
`100*total_completed/(total_completed+total_failed)`. -/
def sustainedSuccessRate (completed failed : ℕ) : Except Unit ℚ :=
  pyDivQ (100 * (completed : ℚ)) ((completed : ℚ) + (failed : ℚ))

/-- `spike_test.py` line 177: `100*total_success/len(all_data)`. -/
def spikeOverallRate (nSuccess nTotal : ℕ) : Except Unit ℚ :=
  pyDivQ (100 * (nSuccess : ℚ)) (nTotal : ℚ)

/-- `bomb_test.py` line 171:
`stats['completed']/(stats['completed']+stats['failed'])*100`. -/
def bombSuccessRate (completed failed : ℕ) : Except Unit ℚ :=
  pyDivQ ((completed : ℚ) * 100) ((completed : ℚ) + (failed : ℚ))

/-! ## Theorems -/

/-- C1 counterexample: on a response whose `Content-Length` value is the
unparsable string `abc`, `parse_response` raises (`int` fails) and the
response is a framing failure, not `(200, 0)` as a zero-length-body reading
would give.  Refutes "absent or invalid Content-Length is treated as a
zero-length body". -/
theorem c1_invalid_content_length_raises :
    parse_response invalidCLNet = ParseOut.error ∧
    (parse_response invalidCLNet).result ≠ some (200, 0) := by
  constructor
  · rfl
  · intro h
    simp [show parse_response invalidCLNet = ParseOut.error from rfl, ParseOut.result] at h

/-- C2 counterexample: on a response declaring `Content-Length: 10` whose
peer closes after delivering 3 body bytes, the framer returns the declared
length 10 as `body_length` while the body bytes actually read number 3.
Refutes "the recorded body_length equals the number of bytes actually read
... including when the peer closes the connection before the declared
Content-Length bytes arrive". -/
theorem c2_early_close_body_length_mismatch :
    parse_response earlyCloseNet = ParseOut.ok 200 10 3 ∧ (10 : ℤ) ≠ (3 : ℤ) := by
  exact ⟨rfl, by decide⟩

theorem findSub_nil_left (t : List Char) : findSub [] t = some 0 := by
  cases t with
  | nil => simp [findSub]
  | cons c rest => simp [findSub, List.isPrefixOf]

theorem findSub_some_bound {sep u : List Char} {i : ℕ}
    (h : findSub sep u = some i) : i + sep.length ≤ u.length := by
  induction u generalizing i with
  | nil =>
    simp only [findSub] at h
    by_cases hsep : sep.isEmpty
    · rw [if_pos hsep] at h
      have hi : i = 0 := (Option.some_inj.mp h).symm
      have hs : sep = [] := List.isEmpty_iff.mp hsep
      simp [hi, hs]
    · rw [if_neg hsep] at h
      cases h
  | cons c rest ih =>
    simp only [findSub] at h
    by_cases hpre : sep.isPrefixOf (c :: rest)
    · rw [if_pos hpre] at h
      have hi : i = 0 := (Option.some_inj.mp h).symm
      have hp : sep <+: c :: rest := List.isPrefixOf_iff_prefix.mp hpre
      subst hi
      simpa using hp.length_le
    · rw [if_neg hpre] at h
      rcases Option.map_eq_some'.mp h with ⟨j, hj, hij⟩
      have := ih hj
      simp only [List.length_cons]
      omega

theorem isPrefixOf_append {sep u : List Char} (t : List Char)
    (h : sep.isPrefixOf u = true) : sep.isPrefixOf (u ++ t) = true := by
  rw [List.isPrefixOf_iff_prefix] at h ⊢
  exact h.trans (List.prefix_append u t)

theorem length_lt_of_not_isPrefixOf {sep u t : List Char}
    (h : sep.isPrefixOf u = false) (hp : sep <+: u ++ t) : u.length < sep.length := by
  by_contra hle
  push_neg at hle
  have hpre : sep.isPrefixOf u = true := by
    rw [List.isPrefixOf_iff_prefix]
    have h1 : sep = (u ++ t).take sep.length := List.prefix_iff_eq_take.mp hp
    rw [List.take_append_of_le_length hle] at h1
    exact h1 ▸ List.take_prefix sep.length u
  rw [h] at hpre
  cases hpre

theorem findSub_append_of_some {sep u : List Char} {i : ℕ} (t : List Char)
    (h : findSub sep u = some i) : findSub sep (u ++ t) = some i := by
  induction u generalizing i with
  | nil =>
    have h0 : sep = [] ∧ i = 0 := by
      simp only [findSub] at h
      by_cases hsep : sep.isEmpty
      · rw [if_pos hsep] at h
        exact ⟨List.isEmpty_iff.mp hsep, (Option.some_inj.mp h).symm⟩
      · rw [if_neg hsep] at h
        cases h
    rcases h0 with ⟨hsep, hi⟩
    subst hsep; subst hi
    simpa using findSub_nil_left t
  | cons c rest ih =>
    by_cases hpre : sep.isPrefixOf (c :: rest)
    · have hi : i = 0 := by
        simp only [findSub] at h
        rw [if_pos hpre] at h
        exact (Option.some_inj.mp h).symm
      subst hi
      have hpre' : sep.isPrefixOf (c :: (rest ++ t)) = true := by
        have := isPrefixOf_append t hpre
        simpa using this
      show findSub sep (c :: (rest ++ t)) = some 0
      simp only [findSub]
      rw [if_pos hpre']
    · have hrest : ∃ j, findSub sep rest = some j ∧ i = j + 1 := by
        simp only [findSub] at h
        rw [if_neg hpre] at h
        rcases Option.map_eq_some'.mp h with ⟨j, hj, hji⟩
        exact ⟨j, hj, hji.symm⟩
      rcases hrest with ⟨j, hj, hi⟩
      subst hi
      have hbound := findSub_some_bound hj
      have hpre' : sep.isPrefixOf (c :: (rest ++ t)) = false := by
        by_contra hcontra
        rw [Bool.not_eq_false] at hcontra
        have hp : sep <+: (c :: rest) ++ t := by
          rw [List.isPrefixOf_iff_prefix] at hcontra
          simpa using hcontra
        have hfalse : sep.isPrefixOf (c :: rest) = false := Bool.eq_false_iff.mpr hpre
        have := length_lt_of_not_isPrefixOf hfalse hp
        simp only [List.length_cons] at this
        omega
      show findSub sep (c :: (rest ++ t)) = some (j + 1)
      simp only [findSub]
      rw [if_neg (by simp [hpre'])]
      rw [ih hj]
      rfl

theorem recv_spec {cap : ℕ} {net : Net} (hne : net.pending ≠ []) (hcap : 1 ≤ cap) :
    ∃ m, 1 ≤ m ∧ m ≤ cap ∧ m ≤ net.pending.length ∧
      recv cap net = (net.pending.take m,
        { sched := net.sched.tail, pending := net.pending.drop m }) := by
  have hlen : 1 ≤ net.pending.length := List.length_pos.mpr hne
  cases hs : net.sched with
  | nil =>
    refine ⟨min cap net.pending.length, le_min hcap hlen, min_le_left _ _, min_le_right _ _, ?_⟩
    simp [recv, hne, hs]
  | cons k ks =>
    refine ⟨min (min (k + 1) cap) net.pending.length, ?_, ?_, min_le_right _ _, ?_⟩
    · exact le_min (le_min (by omega) hcap) hlen
    · exact le_trans (min_le_left _ _) (min_le_right _ _)
    · simp [recv, hne, hs]

theorem readHeadersF_done :
    ∀ (fuel : ℕ) (net : Net) (acc : List Char),
      net.pending.length < fuel →
      (findSub (['\r', '\n', '\r', '\n']) (acc ++ net.pending)).isSome →
      findSub (['\r', '\n', '\r', '\n']) acc = none →
      ∃ r net', readHeadersF fuel net acc = .done r net' ∧
        r ++ net'.pending = acc ++ net.pending ∧
        (findSub (['\r', '\n', '\r', '\n']) r).isSome := by
  intro fuel
  induction fuel with
  | zero => intro net acc hf hterm hacc; omega
  | succ fuel ih =>
    intro net acc hf hterm hacc
    by_cases hne : net.pending = []
    · rw [hne, List.append_nil] at hterm
      rw [hacc] at hterm
      cases hterm
    · obtain ⟨m, hm1, _, hmlen, hrecv⟩ := recv_spec hne (by norm_num : (1 : ℕ) ≤ 4096)
      have hchunk : net.pending.take m ≠ [] := by
        rw [Ne, List.take_eq_nil_iff]
        push_neg
        exact ⟨by omega, hne⟩
      have happ : (acc ++ net.pending.take m) ++ net.pending.drop m = acc ++ net.pending := by
        rw [List.append_assoc, List.take_append_drop]
      simp only [readHeadersF, hrecv]
      rw [if_neg hchunk]
      by_cases hfound : (findSub (['\r', '\n', '\r', '\n']) (acc ++ net.pending.take m)).isSome
      · rw [if_pos hfound]
        exact ⟨acc ++ net.pending.take m, _, rfl, happ, hfound⟩
      · rw [if_neg hfound]
        obtain ⟨r, net', hrun, heq, hsome⟩ :=
          ih ⟨net.sched.tail, net.pending.drop m⟩ (acc ++ net.pending.take m)
            (by simp only [List.length_drop]; omega)
            (by simpa [happ] using hterm)
            (Option.not_isSome_iff_eq_none.mp hfound)
        refine ⟨r, net', hrun, ?_, hsome⟩
        rw [heq]
        exact happ

theorem readBodyF_drains :
    ∀ (fuel : ℕ) (net : Net) (got : ℕ) (cl : ℤ),
      net.pending.length < fuel →
      0 ≤ cl →
      (got : ℤ) ≤ cl →
      cl ≤ (got : ℤ) + net.pending.length →
      readBodyF fuel net got cl = cl.toNat := by
  intro fuel
  induction fuel with
  | zero => intro net got cl hf _ _ _; omega
  | succ fuel ih =>
    intro net got cl hf hcl hle henough
    by_cases hlt : (got : ℤ) < cl
    · have hne : net.pending ≠ [] := by
        intro hcontra
        rw [hcontra] at henough
        simp at henough
        omega
      have hcap : 1 ≤ min (cl - got).toNat 65536 := by
        have h1 : (1 : ℤ) ≤ cl - got := by omega
        omega
      obtain ⟨m, hm1, hmcap, hmlen, hrecv⟩ := recv_spec hne hcap
      have hchunk : net.pending.take m ≠ [] := by
        rw [Ne, List.take_eq_nil_iff]
        push_neg
        exact ⟨by omega, hne⟩
      simp only [readBodyF, hrecv]
      rw [if_pos hlt, if_neg hchunk]
      have hlen_take : (net.pending.take m).length = m := by
        rw [List.length_take]
        omega
      rw [hlen_take]
      apply ih
      · simp only [List.length_drop]; omega
      · exact hcl
      · have : m ≤ (cl - got).toNat := le_trans hmcap (min_le_left _ _)
        push_cast
        omega
      · simp only [List.length_drop]
        push_cast
        omega
    · simp only [readBodyF]
      rw [if_neg hlt]
      omega

/-- C1 (amended): for every incoming byte stream whose bytes contain a
blank-line-terminated header block (first terminator at index `h`) with a
parsable status line, and whose `Content-Length` header is either absent
(then `cl = 0`) or has a value Python `int` accepts, `parse_response`
returns `(st, cl)` taken from the status line and the `Content-Length`
header — under every fragmentation schedule, i.e. with the bytes arriving
split across arbitrarily many reads.  (The amendment: an absent
`Content-Length` is a zero-length body, but an invalid one raises and is a
framing failure — see the counterexample.) -/
theorem c1_parse_response_framing (net : Net) (h : ℕ) (st cl : ℤ)
    (hterm : findSub (['\r', '\n', '\r', '\n']) net.pending = some h)
    (hst : parseStatusLine
      ((splitOnSep (['\r', '\n']) (net.pending.take h)).headD []) = some st)
    (hcl : contentLengthOf
      (buildHeaders (splitOnSep (['\r', '\n']) (net.pending.take h)).tail) = some cl) :
    (parse_response net).result = some (st, cl) := by
  obtain ⟨r, net', hrun, heq, hsome⟩ :=
    readHeadersF_done (net.pending.length + 1) net []
      (by omega)
      (by simpa using Option.isSome_iff_exists.mpr ⟨h, hterm⟩)
      rfl
  rw [List.nil_append] at heq
  rcases Option.isSome_iff_exists.mp hsome with ⟨h2, hh2⟩
  have hfull : findSub (['\r', '\n', '\r', '\n']) net.pending = some h2 := by
    rw [← heq]
    exact findSub_append_of_some net'.pending hh2
  have hhh : h2 = h := by
    rw [hfull] at hterm
    exact Option.some_inj.mp hterm
  subst hhh
  have hbound := findSub_some_bound hh2
  have hprefix : r <+: net.pending := ⟨net'.pending, heq⟩
  have htake : r.take h2 = net.pending.take h2 := by
    have hr : r = net.pending.take r.length := List.prefix_iff_eq_take.mp hprefix
    conv_lhs => rw [hr]
    rw [List.take_take]
    congr 1
    simp at hbound
    omega
  simp only [parse_response, hrun, hh2, htake, hst, hcl]
  rfl

/-- C2 (amended): when the declared body arrives in full — the stream holds
exactly `h + 4 + cl` bytes: the header block, the blank line, and all `cl`
declared body bytes — the framer's returned `body_length` equals both the
declared `Content-Length` and the number of body bytes actually read, and
no header byte is counted as body; this holds under every fragmentation
schedule.  (The amendment: `body_length` is always the declared
`Content-Length`; it equals the bytes actually read only when the peer does
not close early — see the counterexample.) -/
theorem c2_parse_response_body_read (net : Net) (h : ℕ) (st cl : ℤ)
    (hterm : findSub (['\r', '\n', '\r', '\n']) net.pending = some h)
    (hst : parseStatusLine
      ((splitOnSep (['\r', '\n']) (net.pending.take h)).headD []) = some st)
    (hcl : contentLengthOf
      (buildHeaders (splitOnSep (['\r', '\n']) (net.pending.take h)).tail) = some cl)
    (hclnn : 0 ≤ cl)
    (hlen : (net.pending.length : ℤ) = h + 4 + cl) :
    parse_response net = ParseOut.ok st cl cl.toNat := by
  obtain ⟨r, net', hrun, heq, hsome⟩ :=
    readHeadersF_done (net.pending.length + 1) net []
      (by omega)
      (by simpa using Option.isSome_iff_exists.mpr ⟨h, hterm⟩)
      rfl
  rw [List.nil_append] at heq
  rcases Option.isSome_iff_exists.mp hsome with ⟨h2, hh2⟩
  have hfull : findSub (['\r', '\n', '\r', '\n']) net.pending = some h2 := by
    rw [← heq]
    exact findSub_append_of_some net'.pending hh2
  have hhh : h2 = h := by
    rw [hfull] at hterm
    exact Option.some_inj.mp hterm
  subst hhh
  have hbound := findSub_some_bound hh2
  simp only [List.length_cons, List.length_nil] at hbound
  have hprefix : r <+: net.pending := ⟨net'.pending, heq⟩
  have hrle : r.length ≤ net.pending.length := hprefix.length_le
  have htake : r.take h2 = net.pending.take h2 := by
    have hr : r = net.pending.take r.length := List.prefix_iff_eq_take.mp hprefix
    conv_lhs => rw [hr]
    rw [List.take_take]
    congr 1
    omega
  have hsplit : r.length + net'.pending.length = net.pending.length := by
    rw [← heq, List.length_append]
  have hdrain : readBodyF (net'.pending.length + 1) net' (r.length - (h2 + 4)) cl = cl.toNat := by
    apply readBodyF_drains
    · omega
    · exact hclnn
    · have : ((r.length - (h2 + 4) : ℕ) : ℤ) = (r.length : ℤ) - (h2 + 4) := by
        push_cast [Nat.cast_sub (by omega : h2 + 4 ≤ r.length)]
        ring
      rw [this]
      omega
    · have : ((r.length - (h2 + 4) : ℕ) : ℤ) = (r.length : ℤ) - (h2 + 4) := by
        push_cast [Nat.cast_sub (by omega : h2 + 4 ≤ r.length)]
        ring
      rw [this]
      omega
  simp only [parse_response, hrun, hh2, htake, hst, hcl, hdrain]

/-- Witness for C1: the valid response of `validNetSplit`, fragmented into
seven reads, frames to `(200, 5)`. -/
theorem c1_parse_response_framing_witness :
    findSub (['\r', '\n', '\r', '\n']) validNetSplit.pending = some 34 ∧
    (parse_response validNetSplit).result = some (200, 5) :=
  ⟨by decide,
    c1_parse_response_framing validNetSplit 34 200 5 (by decide) (by decide) (by decide)⟩

/-- Witness for C2: on the complete valid response of `validNet` the framer
reports body length 5 and actually reads 5 body bytes. -/
theorem c2_parse_response_body_read_witness :
    ((validNet.pending.length : ℤ) = 34 + 4 + 5) ∧
    parse_response validNet = ParseOut.ok 200 5 (Int.toNat 5) :=
  ⟨by decide,
    c2_parse_response_body_read validNet 34 200 5 (by decide) (by decide) (by decide)
      (by decide) (by decide)⟩

/-- C3: when a worker must (re)connect to serve the next task and the
connect attempt fails, the iteration increments `connection_errors` by
exactly one, re-enqueues the same task at the back of the queue, leaves
`requests_completed` and `requests_failed` untouched, sleeps the 0.1 s
backoff, sends nothing, and continues the loop. -/
theorem c3_connect_failure_retries (maxReq : ℕ) (st : WState) (req : SendRecvRes)
    (ep : String) (rest : List (Option String))
    (hq : st.queue = some ep :: rest)
    (hneed : st.sock = none ∨ maxReq ≤ st.requests_on_connection)
    (hdone : st.done = false) :
    (workerStep maxReq st ConnectRes.failed req).state.stats.connection_errors
        = st.stats.connection_errors + 1 ∧
    (workerStep maxReq st ConnectRes.failed req).state.queue = rest ++ [some ep] ∧
    (workerStep maxReq st ConnectRes.failed req).state.stats.requests_completed
        = st.stats.requests_completed ∧
    (workerStep maxReq st ConnectRes.failed req).state.stats.requests_failed
        = st.stats.requests_failed ∧
    (workerStep maxReq st ConnectRes.failed req).state.done = false ∧
    (workerStep maxReq st ConnectRes.failed req).slept = 1 / 10 ∧
    (workerStep maxReq st ConnectRes.failed req).sentOn = none := by
  simp only [workerStep, hq]
  rw [if_pos hneed]
  simp [hdone]

/-- Witness for C3. -/
theorem c3_connect_failure_retries_witness :
    (WState.mk none 0 0 [some "/"] Stats.init false).sock = none ∧
    (workerStep 200 (WState.mk none 0 0 [some "/"] Stats.init false)
        ConnectRes.failed (SendRecvRes.fail false)).state.stats.connection_errors = 0 + 1 :=
  ⟨rfl,
    (c3_connect_failure_retries 200 (WState.mk none 0 0 [some "/"] Stats.init false)
      (SendRecvRes.fail false) "/" [] rfl (Or.inl rfl) rfl).1⟩

/-- C4: when a task reaches the send/receive stage (the connection was
live, or was just recreated successfully) and the attempt fails,
the iteration increments `requests_failed` by exactly one, discards the
connection (`sock` is `none` afterwards, so it is never reused), resets the
per-connection request counter to zero, does not re-enqueue the task, and
leaves `requests_completed` and `connection_errors` untouched. -/
theorem c4_request_failure_drops_task (maxReq : ℕ) (st : WState) (conn : ConnectRes)
    (ep : String) (rest : List (Option String)) (b : Bool)
    (hq : st.queue = some ep :: rest)
    (hdone : st.done = false)
    (hlive : (st.sock ≠ none ∧ st.requests_on_connection < maxReq) ∨ conn = ConnectRes.ok) :
    (workerStep maxReq st conn (SendRecvRes.fail b)).state.stats.requests_failed
        = st.stats.requests_failed + 1 ∧
    (workerStep maxReq st conn (SendRecvRes.fail b)).state.sock = none ∧
    (workerStep maxReq st conn (SendRecvRes.fail b)).state.requests_on_connection = 0 ∧
    (workerStep maxReq st conn (SendRecvRes.fail b)).state.queue = rest ∧
    (workerStep maxReq st conn (SendRecvRes.fail b)).state.stats.requests_completed
        = st.stats.requests_completed ∧
    (workerStep maxReq st conn (SendRecvRes.fail b)).state.stats.connection_errors
        = st.stats.connection_errors ∧
    (workerStep maxReq st conn (SendRecvRes.fail b)).state.done = false := by
  simp only [workerStep, hq]
  by_cases hcond : (st.sock = none ∨ maxReq ≤ st.requests_on_connection)
  · rw [if_pos hcond]
    have hconn : conn = ConnectRes.ok := by
      rcases hlive with ⟨hs, hr⟩ | hok
      · rcases hcond with hc | hc
        · exact absurd hc hs
        · omega
      · exact hok
    subst hconn
    simp [sendPhase, hdone]
  · rw [if_neg hcond]
    push_neg at hcond
    rcases hcond with ⟨hs, _⟩
    rcases ho : st.sock with _ | cid
    · exact absurd ho hs
    · simp [sendPhase, ho, hdone]

/-- Witness for C4. -/
theorem c4_request_failure_drops_task_witness :
    (WState.mk (some 0) 1 3 [some "/"] Stats.init false).queue = some "/" :: [] ∧
    (workerStep 200 (WState.mk (some 0) 1 3 [some "/"] Stats.init false)
        ConnectRes.ok (SendRecvRes.fail true)).state.stats.requests_failed = 0 + 1 :=
  ⟨rfl,
    (c4_request_failure_drops_task 200 (WState.mk (some 0) 1 3 [some "/"] Stats.init false)
      ConnectRes.ok "/" [] true rfl rfl
      (Or.inl ⟨by simp, by decide⟩)).1⟩

/-- C7: with a live connection `c` (every identifier already issued is
below `nextId`), (a) once `requests_on_connection` has reached
`maxReq`, an iteration that serves a task closes `c` and performs its send
on the freshly connected `nextId ≠ c`, with the per-connection counter
restarted (it is at most 1 afterwards); and (b) whenever an iteration keeps
the same connection, the counter is never reset: it either stays or
increments by one. -/
theorem c7_rotation_and_reset (maxReq : ℕ) (st : WState) (conn : ConnectRes)
    (req : SendRecvRes) (c : ℕ)
    (hsock : st.sock = some c) (hid : c < st.nextId) :
    (∀ ep rest, st.queue = some ep :: rest → maxReq ≤ st.requests_on_connection →
        conn = ConnectRes.ok →
        (workerStep maxReq st conn req).sentOn = some st.nextId ∧
        st.nextId ≠ c ∧
        (workerStep maxReq st conn req).state.sock ≠ some c ∧
        (workerStep maxReq st conn req).state.requests_on_connection ≤ 1) ∧
    ((workerStep maxReq st conn req).state.sock = st.sock →
        (workerStep maxReq st conn req).state.requests_on_connection
            = st.requests_on_connection ∨
        (workerStep maxReq st conn req).state.requests_on_connection
            = st.requests_on_connection + 1) := by
  constructor
  · intro ep rest hq hmax hconn
    subst hconn
    simp only [workerStep, hq]
    rw [if_pos (Or.inr hmax)]
    cases req with
    | ok status bodyLen lat =>
      refine ⟨rfl, by omega, ?_, by simp [sendPhase]⟩
      simp [sendPhase]
      omega
    | fail sentOk =>
      refine ⟨rfl, by omega, ?_, by simp [sendPhase]⟩
      simp [sendPhase]
  · intro hkeep
    rcases hq : st.queue with _ | ⟨t, rest⟩
    · simp only [workerStep, hq]
      left; trivial
    · rcases t with _ | ep
      · simp only [workerStep, hq]
        left; trivial
      · by_cases hcond : ((st.sock = none ∨ maxReq ≤ st.requests_on_connection))
        · cases conn with
          | failed =>
            simp only [workerStep, hq] at hkeep
            rw [if_pos hcond] at hkeep
            simp [hsock] at hkeep
          | ok =>
            simp only [workerStep, hq] at hkeep ⊢
            rw [if_pos hcond] at hkeep ⊢
            cases req with
            | ok status bodyLen lat =>
              simp [sendPhase, hsock] at hkeep
              omega
            | fail sentOk =>
              simp [sendPhase, hsock] at hkeep
        · simp only [workerStep, hq] at hkeep ⊢
          rw [if_neg hcond] at hkeep ⊢
          cases req with
          | ok status bodyLen lat =>
            right
            simp [sendPhase, hsock]
          | fail sentOk =>
            simp [sendPhase, hsock] at hkeep

/-- Witness for C7. -/
theorem c7_rotation_and_reset_witness :
    (WState.mk (some 0) 1 200 [some "/"] Stats.init false).sock = some 0 ∧
    (workerStep 200 (WState.mk (some 0) 1 200 [some "/"] Stats.init false)
        ConnectRes.ok (SendRecvRes.ok 200 0 1)).sentOn = some 1 :=
  ⟨rfl,
    (((c7_rotation_and_reset 200 (WState.mk (some 0) 1 200 [some "/"] Stats.init false)
        ConnectRes.ok (SendRecvRes.ok 200 0 1) 0 rfl (by decide)).1)
      "/" [] rfl (by decide) rfl).1⟩

/-- Helper: each successful `IntervalStats.record` appends one sample. -/
theorem intervalRecordIter_latencies_length (n : ℕ) :
    (intervalRecordIter n).latencies.length = n := by
  induction n with
  | zero => rfl
  | succ n ih => simp [intervalRecordIter, IntervalStats.record, ih]

/-- C6 counterexample: the latency store of `IntervalStats` in
`sustained_load.py` is not bounded by any capacity — `record` appends a
sample on every success, with no fullness check, so no capacity `C` bounds
the store's length over all call sequences. -/
theorem c6_interval_store_unbounded :
    ¬ ∃ C : ℕ, ∀ n : ℕ, (intervalRecordIter n).latencies.length ≤ C := by
  rintro ⟨C, hC⟩
  have h := hC (C + 1)
  rw [intervalRecordIter_latencies_length] at h
  omega

/-- Helper: the fold of `fbRecordSuccess` preserves the 10000 bound. -/
theorem fbFold_latencies_le (ops : List (ℕ × ℚ)) :
    ∀ s : FbStats, s.latencies.length ≤ 10000 →
      ((ops.foldl (fun t o => fbRecordSuccess t o.1 o.2) s).latencies.length ≤ 10000) := by
  induction ops with
  | nil => intro s hs; simpa using hs
  | cons o rest ih =>
    intro s hs
    simp only [List.foldl_cons]
    apply ih
    simp only [fbRecordSuccess]
    by_cases h : s.latencies.length < 10000
    · rw [if_pos h]
      simp only [List.length_append, List.length_cons, List.length_nil]
      omega
    · rw [if_neg h]
      exact hs

/-- C6 (amended): the bounded recorder of `final_benchmark.py`
(capacity 10000) stops accepting samples once full and its store never
exceeds 10000 after any sequence of successful records; the
`IntervalStats` store of `sustained_load.py`, by contrast, is unbounded
(see the counterexample) and is only emptied by the interval `reset`. -/
theorem c6_fb_bounded_store (ops : List (ℕ × ℚ)) (s : FbStats) (respLen : ℕ) (elapsed : ℚ)
    (hfull : s.latencies.length = 10000) :
    ((ops.foldl (fun t o => fbRecordSuccess t o.1 o.2) FbStats.init).latencies.length
        ≤ 10000) ∧
    (fbRecordSuccess s respLen elapsed).latencies = s.latencies := by
  constructor
  · exact fbFold_latencies_le ops FbStats.init (by simp [FbStats.init])
  · simp only [fbRecordSuccess]
    rw [if_neg (by omega)]

/-- Witness for C6. -/
theorem c6_fb_bounded_store_witness :
    (FbStats.mk 0 0 (List.replicate 10000 0) 0).latencies.length = 10000 ∧
    (fbRecordSuccess (FbStats.mk 0 0 (List.replicate 10000 0) 0) 3 7).latencies
      = (FbStats.mk 0 0 (List.replicate 10000 0) 0).latencies :=
  ⟨by apply List.length_replicate,
    (c6_fb_bounded_store [(1, 2)] (FbStats.mk 0 0 (List.replicate 10000 0) 0) 3 7
      (by apply List.length_replicate)).2⟩

/-- Helper: a failed `EndpointStats.record` changes no endpoint's stored
latency samples (it only bumps the error counter, possibly materialising a
fresh empty entry). -/
theorem epMixLatencies_record_failure (m : List (String × EpMixStat)) (ep k : String)
    (lat : ℚ) (b : ℕ) :
    epMixLatencies (EndpointStats.record m ep lat b false) k = epMixLatencies m k := by
  simp only [EndpointStats.record]
  induction m with
  | nil =>
    simp only [updateEpMix, epMixLatencies]
    by_cases h : (ep == k) = true
    · simp [List.find?, h, epMixDefault]
    · simp [List.find?, h]
  | cons kv rest ih =>
    simp only [updateEpMix]
    by_cases h1 : kv.1 = ep
    · rw [if_pos h1]
      simp only [epMixLatencies]
      by_cases h2 : (kv.1 == k) = true
      · simp [List.find?, h2]
      · simp [List.find?, h2]
    · rw [if_neg h1]
      simp only [epMixLatencies] at ih ⊢
      by_cases h2 : (kv.1 == k) = true
      · simp [List.find?, h2]
      · simpa [List.find?, h2] using ih

/-- C9: a failed attempt contributes no latency sample in any recording
path: `IntervalStats.record` (sustained_load), `EndpointStats.record`
(endpoint_mix) and the `stress_test` branch of gradual_stress leave every
stored latency list unchanged on failure — so the mean/median/percentile
inputs come from successes only — and `make_request`'s failure tuple
carries latency 0. -/
theorem c9_failures_add_no_latency_sample (s : IntervalStats)
    (m : List (String × EpMixStat)) (r : StressResult) (ep k : String)
    (lat : ℚ) (b : ℕ) :
    (s.record false lat b).latencies = s.latencies ∧
    (s.record false lat b).failed = s.failed + 1 ∧
    epMixLatencies (EndpointStats.record m ep lat b false) k = epMixLatencies m k ∧
    (gradualRecord r false lat b).latencies = r.latencies ∧
    makeRequestErrorResult.2.1 = 0 :=
  ⟨by simp [IntervalStats.record], by simp [IntervalStats.record],
    epMixLatencies_record_failure m ep k lat b, by simp [gradualRecord], rfl⟩

theorem pySorted_sorted (l : List ℚ) : List.Sorted (fun a b => a ≤ b) (pySorted l) :=
  List.sorted_insertionSort _ l

theorem pySorted_perm (l : List ℚ) : (pySorted l).Perm l :=
  List.perm_insertionSort _ l

theorem pySorted_length (l : List ℚ) : (pySorted l).length = l.length :=
  (pySorted_perm l).length_eq

theorem foldl_max_le_init (xs : List ℚ) (x : ℚ) : x ≤ xs.foldl max x := by
  induction xs generalizing x with
  | nil => simp
  | cons y ys ih =>
    simp only [List.foldl_cons]
    exact le_trans (le_max_left x y) (ih (max x y))

theorem le_foldl_max_of_mem {xs : List ℚ} {y : ℚ} (h : y ∈ xs) (x : ℚ) :
    y ≤ xs.foldl max x := by
  induction xs generalizing x with
  | nil => cases h
  | cons z zs ih =>
    simp only [List.foldl_cons]
    rcases List.mem_cons.mp h with rfl | hmem
    · exact le_trans (le_max_right x y) (foldl_max_le_init zs (max x y))
    · exact ih hmem (max x z)

theorem foldl_max_mem (xs : List ℚ) (x : ℚ) :
    xs.foldl max x = x ∨ xs.foldl max x ∈ xs := by
  induction xs generalizing x with
  | nil => left; rfl
  | cons y ys ih =>
    simp only [List.foldl_cons]
    rcases ih (max x y) with h | h
    · rcases max_choice x y with hx | hy
      · left; rw [h, hx]
      · right; rw [h, hy]; exact List.mem_cons_self _ _
    · right; exact List.mem_cons_of_mem _ h

theorem foldl_min_le_init (xs : List ℚ) (x : ℚ) : xs.foldl min x ≤ x := by
  induction xs generalizing x with
  | nil => simp
  | cons y ys ih =>
    simp only [List.foldl_cons]
    exact le_trans (ih (min x y)) (min_le_left x y)

theorem foldl_min_le_of_mem {xs : List ℚ} {y : ℚ} (h : y ∈ xs) (x : ℚ) :
    xs.foldl min x ≤ y := by
  induction xs generalizing x with
  | nil => cases h
  | cons z zs ih =>
    simp only [List.foldl_cons]
    rcases List.mem_cons.mp h with rfl | hmem
    · exact le_trans (foldl_min_le_init zs (min x y)) (min_le_right x y)
    · exact ih hmem (min x z)

theorem foldl_min_mem (xs : List ℚ) (x : ℚ) :
    xs.foldl min x = x ∨ xs.foldl min x ∈ xs := by
  induction xs generalizing x with
  | nil => left; rfl
  | cons y ys ih =>
    simp only [List.foldl_cons]
    rcases ih (min x y) with h | h
    · rcases min_choice x y with hx | hy
      · left; rw [h, hx]
      · right; rw [h, hy]; exact List.mem_cons_self _ _
    · right; exact List.mem_cons_of_mem _ h

theorem pyMax_mem {l : List ℚ} (h : l ≠ []) : pyMax l ∈ l := by
  cases l with
  | nil => exact absurd rfl h
  | cons x xs =>
    simp only [pyMax]
    rcases foldl_max_mem xs x with h1 | h1
    · rw [h1]; exact List.mem_cons_self _ _
    · exact List.mem_cons_of_mem _ h1

theorem le_pyMax {l : List ℚ} {y : ℚ} (h : y ∈ l) : y ≤ pyMax l := by
  cases l with
  | nil => cases h
  | cons x xs =>
    simp only [pyMax]
    rcases List.mem_cons.mp h with rfl | hmem
    · exact foldl_max_le_init xs y
    · exact le_foldl_max_of_mem hmem x

theorem pyMin_mem {l : List ℚ} (h : l ≠ []) : pyMin l ∈ l := by
  cases l with
  | nil => exact absurd rfl h
  | cons x xs =>
    simp only [pyMin]
    rcases foldl_min_mem xs x with h1 | h1
    · rw [h1]; exact List.mem_cons_self _ _
    · exact List.mem_cons_of_mem _ h1

theorem pyMin_le {l : List ℚ} {y : ℚ} (h : y ∈ l) : pyMin l ≤ y := by
  cases l with
  | nil => cases h
  | cons x xs =>
    simp only [pyMin]
    rcases List.mem_cons.mp h with rfl | hmem
    · exact foldl_min_le_init xs y
    · exact foldl_min_le_of_mem hmem x

theorem pyMax_perm {s l : List ℚ} (hp : s.Perm l) (h : l ≠ []) : pyMax s = pyMax l := by
  have hs : s ≠ [] := by
    intro hc
    subst hc
    exact h hp.nil_eq.symm
  exact le_antisymm (le_pyMax (hp.mem_iff.mp (pyMax_mem hs)))
    (le_pyMax (hp.mem_iff.mpr (pyMax_mem h)))

theorem sorted_getD_mono {s : List ℚ} (hs : List.Sorted (fun a b => a ≤ b) s) {i j : ℕ}
    (hij : i ≤ j) (hj : j < s.length) : s.getD i 0 ≤ s.getD j 0 := by
  have hi : i < s.length := lt_of_le_of_lt hij hj
  rw [List.getD_eq_getElem _ _ (by omega), List.getD_eq_getElem _ _ hj]
  have h2 : s.get ⟨i, by omega⟩ ≤ s.get ⟨j, hj⟩ :=
    hs.rel_get_of_le (Fin.mk_le_mk.mpr hij)
  simpa using h2

theorem sorted_getD_last_eq_pyMax {l : List ℚ} (h : l ≠ []) :
    (pySorted l).getD (l.length - 1) 0 = pyMax l := by
  have hlen : (pySorted l).length = l.length := pySorted_length l
  have hpos : 0 < l.length := List.length_pos.mpr h
  have hidx : l.length - 1 < (pySorted l).length := by omega
  have hmemv : (pySorted l).getD (l.length - 1) 0 ∈ l := by
    rw [List.getD_eq_getElem _ _ hidx]
    exact (pySorted_perm l).mem_iff.mp (List.getElem_mem hidx)
  have hub : pyMax l ≤ (pySorted l).getD (l.length - 1) 0 := by
    have hmem : pyMax l ∈ pySorted l := (pySorted_perm l).mem_iff.mpr (pyMax_mem h)
    rcases List.mem_iff_get.mp hmem with ⟨⟨i, hilt⟩, hi⟩
    have hle : (pySorted l).getD i 0 ≤ (pySorted l).getD (l.length - 1) 0 :=
      sorted_getD_mono (pySorted_sorted l) (by omega) hidx
    rw [List.getD_eq_getElem _ _ hilt] at hle
    have : (pySorted l)[i] = pyMax l := by simpa using hi
    rw [this] at hle
    exact hle
  exact le_antisymm (le_pyMax hmemv) hub

theorem sorted_getD_head_eq_pyMin {l : List ℚ} (h : l ≠ []) :
    (pySorted l).getD 0 0 = pyMin l := by
  have hlen : (pySorted l).length = l.length := pySorted_length l
  have hpos : 0 < l.length := List.length_pos.mpr h
  have hidx : 0 < (pySorted l).length := by omega
  have hmemv : (pySorted l).getD 0 0 ∈ l := by
    rw [List.getD_eq_getElem _ _ hidx]
    exact (pySorted_perm l).mem_iff.mp (List.getElem_mem hidx)
  have hlb : (pySorted l).getD 0 0 ≤ pyMin l := by
    have hmem : pyMin l ∈ pySorted l := (pySorted_perm l).mem_iff.mpr (pyMin_mem h)
    rcases List.mem_iff_get.mp hmem with ⟨⟨i, hilt⟩, hi⟩
    have hle : (pySorted l).getD 0 0 ≤ (pySorted l).getD i 0 :=
      sorted_getD_mono (pySorted_sorted l) (by omega) hilt
    rw [List.getD_eq_getElem _ _ hilt] at hle
    have : (pySorted l)[i] = pyMin l := by simpa using hi
    rw [this] at hle
    exact hle
  exact le_antisymm hlb (pyMin_le hmemv)

theorem percentile_hundred {l : List ℚ} (h : l ≠ []) : percentile 100 l = pyMax l := by
  have hpos : 0 < l.length := List.length_pos.mpr h
  have hfloor : ⌊(100 : ℚ) * (l.length : ℚ)⌋ = (100 * l.length : ℤ) := by
    rw [show (100 : ℚ) * (l.length : ℚ) = ((100 * l.length : ℕ) : ℚ) by push_cast; ring]
    rw [Int.floor_natCast]
    push_cast
    ring
  have hidx : min (⌊(100 : ℚ) * (l.length : ℚ)⌋.toNat) (l.length - 1) = l.length - 1 := by
    rw [hfloor]
    omega
  simp only [percentile]
  rw [hidx]
  exact sorted_getD_last_eq_pyMax h

theorem percentile_zero {l : List ℚ} (h : l ≠ []) : percentile 0 l = pyMin l := by
  have hfloor : ⌊(0 : ℚ) * (l.length : ℚ)⌋ = 0 := by norm_num
  have hidx : min (⌊(0 : ℚ) * (l.length : ℚ)⌋.toNat) (l.length - 1) = 0 := by
    rw [hfloor]
    simp
  simp only [percentile]
  rw [hidx]
  exact sorted_getD_head_eq_pyMin h

theorem percentile_mono {l : List ℚ} (h : l ≠ []) {p q : ℚ} (hpq : p ≤ q) :
    percentile p l ≤ percentile q l := by
  have hpos : 0 < l.length := List.length_pos.mpr h
  have hfl : ⌊p * (l.length : ℚ)⌋ ≤ ⌊q * (l.length : ℚ)⌋ :=
    Int.floor_mono (mul_le_mul_of_nonneg_right hpq (by positivity))
  have htn := Int.toNat_le_toNat hfl
  have hij : min (⌊p * (l.length : ℚ)⌋.toNat) (l.length - 1)
      ≤ min (⌊q * (l.length : ℚ)⌋.toNat) (l.length - 1) := by omega
  apply sorted_getD_mono (pySorted_sorted l) hij
  rw [pySorted_length]
  omega

theorem fbP99_eq_percentile {l : List ℚ} (h : l ≠ []) :
    fbP99 l = percentile (99 / 100) l := by
  have hpos : 0 < l.length := List.length_pos.mpr h
  have hlen : (pySorted l).length = l.length := pySorted_length l
  have hq1 : (1 : ℚ) ≤ (l.length : ℚ) := by exact_mod_cast hpos
  simp only [fbP99, percentile, hlen]
  by_cases hc : 100 ≤ l.length
  · rw [if_pos hc]
    have hflt : ⌊(99 / 100 : ℚ) * (l.length : ℚ)⌋ < (l.length : ℤ) := by
      rw [Int.floor_lt]
      push_cast
      nlinarith
    have hmin : min (⌊(99 / 100 : ℚ) * (l.length : ℚ)⌋.toNat) (l.length - 1)
        = ⌊(99 / 100 : ℚ) * (l.length : ℚ)⌋.toNat := by omega
    rw [mul_comm ((l.length : ℚ)) (99 / 100 : ℚ), hmin]
  · rw [if_neg hc]
    push_neg at hc
    have hq100 : (l.length : ℚ) ≤ 100 := by
      have : l.length ≤ 100 := by omega
      exact_mod_cast this
    have hge : ((l.length : ℤ) - 1) ≤ ⌊(99 / 100 : ℚ) * (l.length : ℚ)⌋ := by
      rw [Int.le_floor]
      push_cast
      nlinarith
    have hmin : min (⌊(99 / 100 : ℚ) * (l.length : ℚ)⌋.toNat) (l.length - 1)
        = l.length - 1 := by omega
    rw [hmin, sorted_getD_last_eq_pyMax h]
    exact pyMax_perm (pySorted_perm l) h

theorem susP99_eq_percentile {l : List ℚ} (h : l ≠ []) :
    susP99 l = percentile (99 / 100) l := by
  have hpos : 0 < l.length := List.length_pos.mpr h
  have hlen : (pySorted l).length = l.length := pySorted_length l
  have hq1 : (1 : ℚ) ≤ (l.length : ℚ) := by exact_mod_cast hpos
  simp only [susP99, percentile, hlen]
  by_cases hc : 100 < l.length
  · rw [if_pos hc]
    have hflt : ⌊(99 / 100 : ℚ) * (l.length : ℚ)⌋ < (l.length : ℤ) := by
      rw [Int.floor_lt]
      push_cast
      nlinarith
    have hmin : min (⌊(99 / 100 : ℚ) * (l.length : ℚ)⌋.toNat) (l.length - 1)
        = ⌊(99 / 100 : ℚ) * (l.length : ℚ)⌋.toNat := by omega
    rw [mul_comm ((l.length : ℚ)) (99 / 100 : ℚ), hmin]
  · rw [if_neg hc]
    push_neg at hc
    have hq100 : (l.length : ℚ) ≤ 100 := by exact_mod_cast hc
    have hge : ((l.length : ℤ) - 1) ≤ ⌊(99 / 100 : ℚ) * (l.length : ℚ)⌋ := by
      rw [Int.le_floor]
      push_cast
      nlinarith
    have hmin : min (⌊(99 / 100 : ℚ) * (l.length : ℚ)⌋.toNat) (l.length - 1)
        = l.length - 1 := by omega
    rw [hmin]

/-- C5: the nearest-rank percentile — sort ascending, index at
`floor(p * n)` clamped to `[0, n-1]`, no interpolation — satisfies, on
every non-empty sample set, `percentile 100 = max`, `percentile 0 = min`
and monotonicity in `p`; and the p99 selections hard-coded in
`final_benchmark.py` (with its `max` fallback below 100 samples) and
`sustained_load.py` (with its last-element fallback) both compute exactly
`percentile (99/100)`. -/
theorem c5_percentile_convention (l : List ℚ) (h : l ≠ []) :
    percentile 100 l = pyMax l ∧
    percentile 0 l = pyMin l ∧
    (∀ p q : ℚ, p ≤ q → percentile p l ≤ percentile q l) ∧
    fbP99 l = percentile (99 / 100) l ∧
    susP99 l = percentile (99 / 100) l :=
  ⟨percentile_hundred h, percentile_zero h,
    fun _ _ hpq => percentile_mono h hpq,
    fbP99_eq_percentile h, susP99_eq_percentile h⟩

/-- Witness for C5. -/
theorem c5_percentile_convention_witness :
    ([3, 1, 2] : List ℚ) ≠ [] ∧
    (percentile 100 [3, 1, 2] = pyMax [3, 1, 2] ∧
      percentile 0 [3, 1, 2] = pyMin [3, 1, 2] ∧
      (∀ p q : ℚ, p ≤ q → percentile p [3, 1, 2] ≤ percentile q [3, 1, 2]) ∧
      fbP99 [3, 1, 2] = percentile (99 / 100) [3, 1, 2] ∧
      susP99 [3, 1, 2] = percentile (99 / 100) [3, 1, 2]) :=
  ⟨by simp, c5_percentile_convention [3, 1, 2] (by simp)⟩

/-- C8 counterexample: in `sustained_load.py` a target that refuses all
connections makes the pre-flight probe fail, yet the process exits 0 (the
function prints an error and returns; there is no `sys.exit`), refuting
"the process exits non-zero at preflight". -/
theorem c8_sustained_preflight_exit_zero :
    sustainedExitCode false 0 0 = 0 ∧ (0 : ℕ) ≠ 1 := ⟨rfl, by decide⟩

/-- C8 (amended): `stress_test.py` exits non-zero exactly when all 30
pre-flight probes fail, and exits 0 after any successful probe regardless
of the in-run failure rate; `sustained_load.py`, however, exits 0 even
when pre-flight fails, and a run of it that passes pre-flight exits 0 iff
at least one attempt was recorded (with zero attempts the unguarded final
report raises and the process exits non-zero). -/
theorem c8_exit_codes (preflight : List Bool) (c f : ℕ)
    (hattempt : c + f ≠ 0) :
    (stressTestExitCode preflight = 0 ↔ (preflight.take 30).any id = true) ∧
    (stressTestExitCode preflight = 1 ↔ (preflight.take 30).any id = false) ∧
    sustainedExitCode false c f = 0 ∧
    sustainedExitCode true c f = 0 ∧
    sustainedExitCode true 0 0 = 1 := by
  refine ⟨?_, ?_, rfl, ?_, rfl⟩
  · simp only [stressTestExitCode]
    by_cases hany : (preflight.take 30).any id = true
    · simp [hany]
    · simp [hany]
  · simp only [stressTestExitCode]
    by_cases hany : (preflight.take 30).any id = true
    · simp [hany]
    · simp [hany]
  · simp only [sustainedExitCode]
    rw [if_neg (by simp), if_neg hattempt]

/-- Witness for C8. -/
theorem c8_exit_codes_witness :
    (1 + 0 : ℕ) ≠ 0 ∧ sustainedExitCode true 1 0 = 0 :=
  ⟨by decide, (c8_exit_codes [true] 1 0 (by decide)).2.2.2.1⟩

/-- C10: the final reports of sustained_load, spike_test and bomb_test
compute the success rate with no guard against a zero denominator: with
zero recorded attempts the division raises `ZeroDivisionError` instead of
producing a report, and with at least one attempt it yields
`100·completed/(completed+failed)`. -/
theorem c10_success_rate_division (c f n : ℕ) :
    (c + f = 0 → sustainedSuccessRate c f = Except.error ()
      ∧ bombSuccessRate c f = Except.error ()) ∧
    (n = 0 → spikeOverallRate c n = Except.error ()) ∧
    (c + f ≠ 0 → sustainedSuccessRate c f
      = Except.ok ((100 * (c : ℚ)) / ((c : ℚ) + (f : ℚ)))) := by
  refine ⟨?_, ?_, ?_⟩
  · intro h0
    have hc : c = 0 := by omega
    have hf : f = 0 := by omega
    subst hc; subst hf
    constructor <;> norm_num [sustainedSuccessRate, bombSuccessRate, pyDivQ]
  · intro h0
    subst h0
    norm_num [spikeOverallRate, pyDivQ]
  · intro hne
    have hden : ((c : ℚ) + (f : ℚ)) ≠ 0 := by
      have : (0 : ℚ) < (c : ℚ) + (f : ℚ) := by
        have : 0 < c + f := Nat.pos_of_ne_zero hne
        exact_mod_cast this
      exact ne_of_gt this
    simp only [sustainedSuccessRate, pyDivQ]
    rw [if_neg hden]

/-- Witness for C10. -/
theorem c10_success_rate_division_witness :
    (0 + 0 : ℕ) = 0 ∧ sustainedSuccessRate 0 0 = Except.error () :=
  ⟨rfl, ((c10_success_rate_division 0 0 0).1 rfl).1⟩
